import Mathlib

/-!
Shallow embedding of `src/process_tokenlist.js` (plyr-api-tokenlist).

The script enriches each token of a JSON tokenlist with three derived color
fields and writes the updated JSON plus an HTML preview.  JavaScript numbers
are modelled as exact rationals, JavaScript objects as insertion-ordered
association lists with distinct keys, thrown exceptions as `Option`/explicit
error branches, and the two external services (axios download, ColorThief
analysis of the temporary file) as oracle parameters.
-/

set_option autoImplicit false

namespace TokenColors

/-- Value of a JSON/JavaScript field as stored in a token record. -/
inductive JsVal where
  | str (s : String)
  | num (q : ℚ)
  | bool (b : Bool)
  | null
deriving DecidableEq

/-- JavaScript truthiness of a value, used by `if (token.logoURI)`. -/
def JsVal.truthy : JsVal → Bool
  | .str s => !(s == "")
  | .num q => !(q == 0)
  | .bool b => b
  | .null => false

/-- Numeric value of one character of the class `[a-f\d]` under the `i` flag
(so digits, `a`–`f` and `A`–`F`), as matched by the regular expression in
`hexToRgb`; `none` for a character outside the class.  Character codes:
`0`–`9` are 48–57, `a`–`f` are 97–102, `A`–`F` are 65–70. -/
def hexVal? (c : Char) : Option Nat :=
  let n := c.toNat
  if 48 ≤ n ∧ n ≤ 57 then some (n - 48)
  else if 97 ≤ n ∧ n ≤ 102 then some (n - 87)
  else if 65 ≤ n ∧ n ≤ 70 then some (n - 55)
  else none

/-- The optional leading `#` of the regular expression: drop it if present. -/
def stripHash : List Char → List Char
  | '#' :: rest => rest
  | rest => rest

/-- The `hexToRgb` helper of `mixColors`: the regular expression accepts an
optional leading `#` followed by exactly six class characters, and each pair
of digits is parsed with `parseInt(_, 16)`. -/
def hexToRgb (hex : String) : Option (Nat × Nat × Nat) :=
  match stripHash hex.data with
  | [c1, c2, c3, c4, c5, c6] =>
    match hexVal? c1, hexVal? c2, hexVal? c3, hexVal? c4, hexVal? c5, hexVal? c6 with
    | some a, some b, some c, some d, some e, some f =>
        some (16 * a + b, 16 * c + d, 16 * e + f)
    | _, _, _, _, _, _ => none
  | _ => none

/-- JavaScript `Math.round`: round half toward positive infinity. -/
def jsRound (q : ℚ) : ℤ := Int.floor (q + 1/2)

/-- Lowercase hexadecimal digit character for a value below 16. -/
def hexDigitChar (n : Nat) : Char :=
  if n < 10 then Char.ofNat (48 + n) else Char.ofNat (87 + n)

/-- Hexadecimal digits of a natural number, least significant digit first.
The first argument is fuel making the recursion structural; any fuel above the
number of digits gives the same result, and `natToHexString` supplies enough. -/
def natToHexAux : Nat → Nat → List Char
  | 0, _ => []
  | fuel + 1, n =>
      if n < 16 then [hexDigitChar n]
      else hexDigitChar (n % 16) :: natToHexAux fuel (n / 16)

/-- JavaScript `Number.prototype.toString(16)` on a natural number:
lowercase hexadecimal digits, no padding. -/
def natToHexString (n : Nat) : String := String.mk (natToHexAux (n + 1) n).reverse

/-- JavaScript `Number.prototype.toString(16)` on an integer (a negative
number prints as a minus sign followed by the digits of its magnitude). -/
def intToHexString (i : ℤ) : String :=
  if i < 0 then "-" ++ natToHexString i.natAbs else natToHexString i.toNat

/-- Pad a hexadecimal string to two characters with a leading `0`, as the
explicit length check in `rgbToHex` and `padStart(2, '0')` in `toHex` do. -/
def pad2 (s : String) : String := if s.length == 1 then "0" ++ s else s

/-- One channel of `rgbToHex`: `Math.round(x).toString(16)`, padded. -/
def hexPiece (x : ℚ) : String := pad2 (intToHexString (jsRound x))

/-- The `rgbToHex` helper of `mixColors`. -/
def rgbToHex (r g b : ℚ) : String := "#" ++ hexPiece r ++ hexPiece g ++ hexPiece b

/-- `mixColors` of the script.  A `none` result models the `TypeError` thrown
when `hexToRgb` returned `null` for either argument and the code then reads
property `.r` of `null`. -/
def mixColors (color1 color2 : String) (r : ℚ := 1/2) : Option String :=
  match hexToRgb color1, hexToRgb color2 with
  | some rgb1, some rgb2 =>
      some (rgbToHex ((rgb1.1 : ℚ) * r + (rgb2.1 : ℚ) * (1 - r))
                     ((rgb1.2.1 : ℚ) * r + (rgb2.2.1 : ℚ) * (1 - r))
                     ((rgb1.2.2 : ℚ) * r + (rgb2.2.2 : ℚ) * (1 - r)))
  | _, _ => none

/-- The `toHex` helper of `processImage`: each channel printed with
`toString(16)` and `padStart(2, '0')`. -/
def toHex (rgb : Nat × Nat × Nat) : String :=
  "#" ++ pad2 (natToHexString rgb.1) ++ pad2 (natToHexString rgb.2.1)
      ++ pad2 (natToHexString rgb.2.2)

/-- The triple returned by `processImage`. -/
structure ColorTriple where
  averageColor : String
  dominantColor1 : String
  dominantColor2 : String
deriving DecidableEq

/-- Fallback triple returned for absent input and on caught errors. -/
def fallbackTriple : ColorTriple :=
  { averageColor := "#000000", dominantColor1 := "#000000", dominantColor2 := "#ffffff" }

/-- Outcome of writing the buffer to the temporary file and running ColorThief
on it: either `getPalette`/`getColor` throws (corrupt or unsupported image), or
they return a palette of at most two entries and an average color, each an
array of three 0–255 channel values. -/
inductive ImgOutcome where
  | decodeError
  | decoded (palette : List (Nat × Nat × Nat)) (average : Nat × Nat × Nat)
deriving DecidableEq

/-- `dominantColor1` of `processImage`: `palette[0] ? toHex(palette[0]) : '#000000'`
(an array, when present, is always truthy). -/
def dominantOf (palette : List (Nat × Nat × Nat)) : String :=
  match palette.get? 0 with
  | some c => toHex c
  | none => "#000000"

/-- `processImage` with its file-system effect made explicit: the `Bool`
component is `true` exactly when the call leaves its temporary file behind.
The `fs.unlink` sits between the ColorThief calls and the `return`, so it runs
only when `getPalette`/`getColor` did not throw; the `catch` block returns the
fallback triple without removing the file.  A `mixColors` failure would throw
after the unlink and also land in the `catch`. -/
def processImageFS : Option ImgOutcome → ColorTriple × Bool
  | none => (fallbackTriple, false)
  | some ImgOutcome.decodeError => (fallbackTriple, true)
  | some (ImgOutcome.decoded palette average) =>
      match palette.get? 1 with
      | some c2 =>
          ({ averageColor := toHex average, dominantColor1 := dominantOf palette,
             dominantColor2 := toHex c2 }, false)
      | none =>
          match mixColors (dominantOf palette) "#ffffff" (1/10) with
          | some d2 =>
              ({ averageColor := toHex average, dominantColor1 := dominantOf palette,
                 dominantColor2 := d2 }, false)
          | none => (fallbackTriple, false)

/-- Return value of `processImage`. -/
def processImage (imageBuffer : Option ImgOutcome) : ColorTriple :=
  (processImageFS imageBuffer).1

/-- A token record: a JavaScript object as parsed from the tokenlist JSON, an
insertion-ordered association list with distinct (non-index) string keys. -/
abbrev Record := List (String × JsVal)

/-- Keys of a record in iteration order. -/
def keys (r : Record) : List String := r.map Prod.fst

/-- JavaScript property read `r[k]`; `none` models `undefined`. -/
def lookup (r : Record) (k : String) : Option JsVal :=
  (r.find? (fun p => p.1 == k)).map Prod.snd

/-- JavaScript property write `r[k] = v`: when the key exists its value is
updated in place (the key keeps its position), otherwise the key is appended
at the end of the iteration order. -/
def assign (r : Record) (k : String) (v : JsVal) : Record :=
  if r.any (fun p => p.1 == k) then r.map (fun p => if p.1 == k then (k, v) else p)
  else r ++ [(k, v)]

/-- The three derived entries in the order the loop assigns them. -/
def colorEntries (colors : ColorTriple) : Record :=
  [("averageColor", JsVal.str colors.averageColor),
   ("dominantColor1", JsVal.str colors.dominantColor1),
   ("dominantColor2", JsVal.str colors.dominantColor2)]

/-- Body of the `for (const key in token)` loop that builds `newToken`: copy
the current entry, and after copying the `logoURI` entry also assign the three
derived color entries. -/
def mergeStep (colors : ColorTriple) (newToken : Record) (kv : String × JsVal) : Record :=
  if kv.1 == "logoURI" then
    assign (assign (assign (assign newToken kv.1 kv.2)
          "averageColor" (JsVal.str colors.averageColor))
        "dominantColor1" (JsVal.str colors.dominantColor1))
      "dominantColor2" (JsVal.str colors.dominantColor2)
  else assign newToken kv.1 kv.2

/-- The merge of lines 107–116: build a fresh record, copying the token's
entries in order and assigning the three color entries right after the
`logoURI` entry. -/
def mergeToken (token : Record) (colors : ColorTriple) : Record :=
  token.foldl (mergeStep colors) []

/-- Modelled from the spec (Record Merger contract, §4.4): the input entries
in their original order with the three derived entries inserted immediately
after the logo-reference entry.  Stated separately from the implementation so
that the two can be compared. -/
def specMergeToken : Record → ColorTriple → Record
  | [], _ => []
  | (k, v) :: rest, colors =>
      if k == "logoURI" then (k, v) :: (colorEntries colors ++ rest)
      else (k, v) :: specMergeToken rest colors

/-- One iteration of the driver loop (lines 98–124) on one token.  The network
is the `downloadImage` oracle: `none` is a failed download (`downloadImage`
catches every error and returns `null`).  Colors are merged only inside
`if (imageBuffer)`; the `else` branch logs and leaves the token as it is. -/
def processToken (downloadImage : JsVal → Option ImgOutcome) (token : Record) : Record :=
  match lookup token "logoURI" with
  | some v =>
      if v.truthy then
        match downloadImage v with
        | some imageBuffer => mergeToken token (processImage (some imageBuffer))
        | none => token
      else token
  | none => token

/-- `processTokenlist`.  A `none` input models a failed read or parse of the
tokenlist file (caught by the top-level catch: no output written).  Otherwise
every token goes through the loop and, after the loop, both output files are
written: the rewritten tokenlist JSON and the HTML preview rendered from the
same updated tokens. -/
def processTokenlist (downloadImage : JsVal → Option ImgOutcome)
    (input : Option (List Record)) : Option (List Record × List Record) :=
  match input with
  | none => none
  | some tokens =>
      let updated := tokens.map (processToken downloadImage)
      some (updated, updated)

/-- Modelled from the spec (Color Mixer contract, §4.3): one channel of the
interpolation `r*color1 + (1-r)*color2`, rounded to the nearest integer and
clamped into `[0, 255]`. -/
def specMixChannel (a b : Nat) (r : ℚ) : ℤ :=
  max 0 (min 255 (jsRound ((a : ℚ) * r + (b : ℚ) * (1 - r))))

/-- Modelled from the spec: the clamped interpolated channels re-encoded as a
`#rrggbb` string. -/
def specMix (t1 t2 : Nat × Nat × Nat) (r : ℚ) : String :=
  "#" ++ pad2 (intToHexString (specMixChannel t1.1 t2.1 r))
      ++ pad2 (intToHexString (specMixChannel t1.2.1 t2.2.1 r))
      ++ pad2 (intToHexString (specMixChannel t1.2.2 t2.2.2 r))

/-- A lowercase hexadecimal digit character. -/
def isLowerHexDigit (c : Char) : Bool :=
  (48 ≤ c.toNat && c.toNat ≤ 57) || (97 ≤ c.toNat && c.toNat ≤ 102)

/-- Canonical color string: `#` followed by six lowercase hexadecimal digits
(the spec's 7-character lowercase `#rrggbb` form). -/
def isCanonicalHexColor (s : String) : Bool :=
  match s.data with
  | c :: rest => c == '#' && rest.length == 6 && rest.all isLowerHexDigit
  | _ => false

@[simp]
theorem keys_nil : keys [] = [] := rfl

@[simp]
theorem keys_cons (p : String × JsVal) (r : Record) : keys (p :: r) = p.1 :: keys r := rfl

@[simp]
theorem keys_append (r s : Record) : keys (r ++ s) = keys r ++ keys s :=
  List.map_append _ r s

/-- A record's `any`-search for a key fails when the key is absent. -/
theorem any_eq_false_of_not_mem_keys (r : Record) (k : String) (h : k ∉ keys r) :
    r.any (fun p => p.1 == k) = false := by
  rw [List.any_eq_false]
  intro p hp
  simp only [beq_iff_eq]
  intro hk
  exact h (List.mem_map.mpr ⟨p, hp, hk⟩)

/-- Assigning an absent key appends it at the end of the iteration order. -/
theorem assign_of_not_mem (r : Record) (k : String) (v : JsVal) (h : k ∉ keys r) :
    assign r k v = r ++ [(k, v)] := by
  unfold assign
  rw [any_eq_false_of_not_mem_keys r k h]
  simp

/-- The update pass of `assign` leaves entries with other keys alone. -/
theorem map_assign_update_of_not_mem (r : Record) (k : String) (v : JsVal)
    (h : k ∉ keys r) :
    r.map (fun p => if p.1 == k then (k, v) else p) = r := by
  induction r with
  | nil => rfl
  | cons p t ih =>
    simp only [keys_cons, List.mem_cons, not_or] at h
    rw [List.map_cons, if_neg (by simp [Ne.symm h.1]), ih h.2]

/-- Assigning a present key updates its value in place. -/
theorem assign_of_mem (xs ys : Record) (k : String) (w v : JsVal)
    (hx : k ∉ keys xs) (hy : k ∉ keys ys) :
    assign (xs ++ (k, w) :: ys) k v = xs ++ (k, v) :: ys := by
  unfold assign
  have hany : (xs ++ (k, w) :: ys).any (fun p => p.1 == k) = true := by
    rw [List.any_eq_true]
    exact ⟨(k, w), by simp, by simp⟩
  rw [hany, if_pos rfl, List.map_append, List.map_cons,
    map_assign_update_of_not_mem xs k v hx, if_pos (by simp),
    map_assign_update_of_not_mem ys k v hy]

/-- Folding the loop body over entries whose keys are fresh, pairwise distinct
and different from `logoURI` just appends those entries to the accumulator. -/
theorem foldl_mergeStep_of_fresh (colors : ColorTriple) (seg : Record) :
    ∀ acc : Record, (∀ p ∈ seg, p.1 ∉ keys acc) → (keys seg).Nodup →
      "logoURI" ∉ keys seg →
      List.foldl (mergeStep colors) acc seg = acc ++ seg := by
  induction seg with
  | nil => intro acc _ _ _; simp
  | cons p t ih =>
    intro acc hdisj hnd hlogo
    obtain ⟨k, v⟩ := p
    simp only [keys_cons, List.mem_cons, not_or] at hlogo
    simp only [keys_cons, List.nodup_cons] at hnd
    have hk_acc : k ∉ keys acc := hdisj (k, v) (List.mem_cons_self _ _)
    have step : mergeStep colors acc (k, v) = acc ++ [(k, v)] := by
      unfold mergeStep
      rw [if_neg (by simp [Ne.symm hlogo.1]), assign_of_not_mem acc k v hk_acc]
    rw [List.foldl_cons, step, ih (acc ++ [(k, v)]) ?_ hnd.2 hlogo.2]
    · simp
    · intro q hq
      simp only [keys_append, keys_cons, keys_nil, List.mem_append, List.mem_cons,
        List.not_mem_nil, or_false, not_or]
      refine ⟨hdisj q (List.mem_cons_of_mem _ hq), ?_⟩
      intro hqk
      exact hnd.1 (hqk ▸ List.mem_map.mpr ⟨q, hq, rfl⟩)

/-- The loop body at the `logoURI` entry copies it and then appends the three
color entries, provided none of the four keys is present yet. -/
theorem mergeStep_logo (colors : ColorTriple) (acc : Record) (u : JsVal)
    (hl : "logoURI" ∉ keys acc) (ha : "averageColor" ∉ keys acc)
    (hb : "dominantColor1" ∉ keys acc) (hc : "dominantColor2" ∉ keys acc) :
    mergeStep colors acc ("logoURI", u) = acc ++ ("logoURI", u) :: colorEntries colors := by
  simp only [mergeStep]
  rw [if_pos (show (("logoURI" : String) == "logoURI") = true from rfl),
    assign_of_not_mem acc "logoURI" u hl,
    assign_of_not_mem _ "averageColor" _ ?_, assign_of_not_mem _ "dominantColor1" _ ?_,
    assign_of_not_mem _ "dominantColor2" _ ?_]
  · simp [colorEntries]
  · simp only [keys_append, keys_cons, keys_nil, List.mem_append, List.mem_cons,
      List.not_mem_nil, or_false, not_or]
    exact ⟨⟨⟨hc, by decide⟩, by decide⟩, by decide⟩
  · simp only [keys_append, keys_cons, keys_nil, List.mem_append, List.mem_cons,
      List.not_mem_nil, or_false, not_or]
    exact ⟨⟨hb, by decide⟩, by decide⟩
  · simp only [keys_append, keys_cons, keys_nil, List.mem_append, List.mem_cons,
      List.not_mem_nil, or_false, not_or]
    exact ⟨ha, by decide⟩

/-- When a token has no `logoURI` property at all, the loop body is skipped
and the token is left untouched (helper for the driver theorems). -/
theorem processToken_of_no_logo (downloadImage : JsVal → Option ImgOutcome)
    (token : Record) (h : lookup token "logoURI" = none) :
    processToken downloadImage token = token := by
  unfold processToken
  rw [h]

/-- C8: on the absent sentinel (a `null` image buffer), `processImage` returns
exactly the fixed fallback triple `(#000000, #000000, #ffffff)`. -/
theorem processImage_absent_returns_fallback :
    processImage none =
      { averageColor := "#000000", dominantColor1 := "#000000",
        dominantColor2 := "#ffffff" } := rfl

/-- C3, evaluation at the failing input: when ColorThief throws while decoding
the written buffer, `processImageFS` reports a leftover temporary file (second
component `true`) — the `catch` path never reaches the `fs.unlink`.  When
decoding succeeds the file is removed, and an absent buffer writes no file. -/
theorem processImage_tempfile_leak :
    (processImageFS (some ImgOutcome.decodeError)).2 = true ∧
    (processImageFS (some (ImgOutcome.decoded [(1, 2, 3), (4, 5, 6)] (7, 8, 9)))).2 = false ∧
    (processImageFS none).2 = false := by
  decide

/-- C1, evaluation at the failing input: with a token whose `logoURI` download
fails (`downloadImage` returns `null`), the run still completes and produces
both output files, but the token is written back unchanged — `processImage` is
never invoked and no fallback colors are merged (`averageColor` is absent from
the output record, and the record differs from what merging the fallback
triple would have produced). -/
theorem driver_fetch_failure_skips_merge :
    processTokenlist (fun _ => none)
        (some [[("symbol", JsVal.str "PLYR"), ("logoURI", JsVal.str "https://example.invalid/logo.png")]]) =
      some ([[("symbol", JsVal.str "PLYR"), ("logoURI", JsVal.str "https://example.invalid/logo.png")]],
            [[("symbol", JsVal.str "PLYR"), ("logoURI", JsVal.str "https://example.invalid/logo.png")]]) ∧
    lookup [("symbol", JsVal.str "PLYR"), ("logoURI", JsVal.str "https://example.invalid/logo.png")]
        "averageColor" = none ∧
    mergeToken [("symbol", JsVal.str "PLYR"), ("logoURI", JsVal.str "https://example.invalid/logo.png")]
        fallbackTriple ≠
      [("symbol", JsVal.str "PLYR"), ("logoURI", JsVal.str "https://example.invalid/logo.png")] := by
  refine ⟨by decide, by decide, by decide⟩

/-- C2, counterexample: on a record that already holds an `averageColor` entry
before the `logoURI` entry, the loop does not reproduce the spec's insertion
shape — the assignment finds the existing key and overwrites it in place, so
the key sequence of the output is not the input keys with the three color keys
inserted right after `logoURI`. -/
theorem mergeToken_preexisting_color_counterexample :
    mergeToken
        [("averageColor", JsVal.str "#111111"), ("logoURI", JsVal.str "u"),
         ("name", JsVal.str "n")]
        ⟨"#222222", "#333333", "#444444"⟩ ≠
      specMergeToken
        [("averageColor", JsVal.str "#111111"), ("logoURI", JsVal.str "u"),
         ("name", JsVal.str "n")]
        ⟨"#222222", "#333333", "#444444"⟩ ∧
    keys (mergeToken
        [("averageColor", JsVal.str "#111111"), ("logoURI", JsVal.str "u"),
         ("name", JsVal.str "n")]
        ⟨"#222222", "#333333", "#444444"⟩) =
      ["averageColor", "logoURI", "dominantColor1", "dominantColor2", "name"] := by
  refine ⟨by decide, by decide⟩

/-- C9: when either argument of `mixColors` does not match the hex-color
regular expression (an optional `#` followed by six hex digits), `hexToRgb`
returns `null` and `mixColors` throws (`none`) instead of producing a color. -/
theorem mixColors_malformed_throws (color1 color2 : String) (r : ℚ)
    (h : hexToRgb color1 = none ∨ hexToRgb color2 = none) :
    mixColors color1 color2 r = none := by
  unfold mixColors
  rcases h with h | h
  · rw [h]
  · rw [h]
    cases hexToRgb color1 <;> rfl

/-- Witness for C9 at a concrete malformed input. -/
theorem mixColors_malformed_throws_witness :
    (hexToRgb "#12g045" = none ∨ hexToRgb "#ffffff" = none) ∧
      mixColors "#12g045" "#ffffff" (1/2) = none :=
  ⟨Or.inl (by decide), mixColors_malformed_throws "#12g045" "#ffffff" (1/2) (Or.inl (by decide))⟩

/-- C4: a token without a logo reference passes through the batch driver
unmodified — the updated list holds the identical record at its index in both
output files, with no color fields added. -/
theorem driver_leaves_tokens_without_logo_unmodified
    (downloadImage : JsVal → Option ImgOutcome) (tokens : List Record)
    (i : Nat) (token : Record) (hi : tokens[i]? = some token)
    (h : lookup token "logoURI" = none) :
    ∃ out, processTokenlist downloadImage (some tokens) = some out ∧
      out.1[i]? = some token ∧ out.2[i]? = some token := by
  refine ⟨((tokens.map (processToken downloadImage)), (tokens.map (processToken downloadImage))),
    rfl, ?_, ?_⟩ <;>
    rw [List.getElem?_map, hi, Option.map_some', processToken_of_no_logo _ _ h]

/-- Witness for C4 at a concrete token without a logo reference. -/
theorem driver_leaves_tokens_without_logo_unmodified_witness :
    ([[(("symbol" : String), JsVal.str "GAMR")]][0]? = some [("symbol", JsVal.str "GAMR")]) ∧
    lookup [("symbol", JsVal.str "GAMR")] "logoURI" = none ∧
    ∃ out, processTokenlist (fun _ => none) (some [[("symbol", JsVal.str "GAMR")]]) = some out ∧
      out.1[0]? = some [("symbol", JsVal.str "GAMR")] ∧
      out.2[0]? = some [("symbol", JsVal.str "GAMR")] :=
  ⟨by decide, by decide,
    driver_leaves_tokens_without_logo_unmodified (fun _ => none) _ 0 _ (by decide) (by decide)⟩

/-- C2 (amended): for a token record with distinct keys that contains a
`logoURI` entry and none of the three color keys, the merge builds a fresh
record holding the input entries in their original order with their original
values, and the three color entries inserted immediately after the `logoURI`
entry. -/
theorem mergeToken_inserts_colors_after_logo (pre post : Record) (u : JsVal)
    (colors : ColorTriple)
    (hnd : (keys (pre ++ ("logoURI", u) :: post)).Nodup)
    (ha : "averageColor" ∉ keys (pre ++ ("logoURI", u) :: post))
    (hb : "dominantColor1" ∉ keys (pre ++ ("logoURI", u) :: post))
    (hc : "dominantColor2" ∉ keys (pre ++ ("logoURI", u) :: post)) :
    mergeToken (pre ++ ("logoURI", u) :: post) colors =
      pre ++ ("logoURI", u) :: (colorEntries colors ++ post) := by
  simp only [keys_append, keys_cons] at hnd ha hb hc
  simp only [List.mem_append, List.mem_cons, not_or] at ha hb hc
  have hpre_nd : (keys pre).Nodup := hnd.of_append_left
  have hdisj := List.disjoint_of_nodup_append hnd
  have hrest := hnd.of_append_right
  rw [List.nodup_cons] at hrest
  have hlogo_pre : "logoURI" ∉ keys pre := fun h => hdisj h (List.mem_cons_self _ _)
  have hlogo_post : "logoURI" ∉ keys post := hrest.1
  have hpost_nd : (keys post).Nodup := hrest.2
  unfold mergeToken
  rw [List.foldl_append,
    foldl_mergeStep_of_fresh colors pre [] (by simp) hpre_nd hlogo_pre,
    List.nil_append, List.foldl_cons,
    mergeStep_logo colors pre u hlogo_pre ha.1 hb.1 hc.1,
    foldl_mergeStep_of_fresh colors post _ ?_ hpost_nd hlogo_post]
  · simp
  · intro p hp
    have hpk : p.1 ∈ keys post := List.mem_map.mpr ⟨p, hp, rfl⟩
    simp only [keys_append, keys_cons, colorEntries, keys_nil, List.mem_append,
      List.mem_cons, List.not_mem_nil, or_false, not_or]
    refine ⟨fun hmem => hdisj hmem (List.mem_cons_of_mem _ hpk), ?_, ?_, ?_, ?_⟩
    · exact fun h => hlogo_post (h ▸ hpk)
    · exact fun h => ha.2.2 (h ▸ hpk)
    · exact fun h => hb.2.2 (h ▸ hpk)
    · exact fun h => hc.2.2 (h ▸ hpk)

/-- Witness for C2 (amended) at a concrete token record. -/
theorem mergeToken_inserts_colors_after_logo_witness :
    (keys ([("chainId", JsVal.str "16180")] ++ ("logoURI", JsVal.str "https://x/y.png") ::
        [("name", JsVal.str "PLYR")])).Nodup ∧
    mergeToken ([("chainId", JsVal.str "16180")] ++ ("logoURI", JsVal.str "https://x/y.png") ::
        [("name", JsVal.str "PLYR")]) ⟨"#111111", "#222222", "#333333"⟩ =
      [("chainId", JsVal.str "16180")] ++ ("logoURI", JsVal.str "https://x/y.png") ::
        (colorEntries ⟨"#111111", "#222222", "#333333"⟩ ++ [("name", JsVal.str "PLYR")]) :=
  ⟨by decide,
    mergeToken_inserts_colors_after_logo [("chainId", JsVal.str "16180")]
      [("name", JsVal.str "PLYR")] (JsVal.str "https://x/y.png")
      ⟨"#111111", "#222222", "#333333"⟩ (by decide) (by decide) (by decide) (by decide)⟩

/-- C10: when a token record (with distinct keys) already carries the three
color keys immediately after `logoURI`, the merge rebuilds exactly the input
record: the freshly inserted color values are overwritten by the pre-existing
values when the loop reaches those keys, so merging is idempotent and the
computed triple never changes previously stored colors. -/
theorem mergeToken_preexisting_colors_idempotent (pre post : Record)
    (u a b c : JsVal) (colors : ColorTriple)
    (hnd : (keys (pre ++ ("logoURI", u) :: ("averageColor", a) ::
        ("dominantColor1", b) :: ("dominantColor2", c) :: post)).Nodup) :
    mergeToken (pre ++ ("logoURI", u) :: ("averageColor", a) ::
        ("dominantColor1", b) :: ("dominantColor2", c) :: post) colors =
      pre ++ ("logoURI", u) :: ("averageColor", a) ::
        ("dominantColor1", b) :: ("dominantColor2", c) :: post := by
  simp only [keys_append, keys_cons] at hnd
  have hpre_nd : (keys pre).Nodup := hnd.of_append_left
  have hdisj := List.disjoint_of_nodup_append hnd
  have hrest := hnd.of_append_right
  rw [List.nodup_cons, List.nodup_cons, List.nodup_cons, List.nodup_cons] at hrest
  obtain ⟨hLg, hAv, hD1, hD2, hpost_nd⟩ := hrest
  have hlogo_pre : "logoURI" ∉ keys pre := fun h => hdisj h (by simp)
  have havg_pre : "averageColor" ∉ keys pre := fun h => hdisj h (by simp)
  have hd1_pre : "dominantColor1" ∉ keys pre := fun h => hdisj h (by simp)
  have hd2_pre : "dominantColor2" ∉ keys pre := fun h => hdisj h (by simp)
  have hlogo_post : "logoURI" ∉ keys post := fun h => hLg (by simp [h])
  have havg_post : "averageColor" ∉ keys post := fun h => hAv (by simp [h])
  have hd1_post : "dominantColor1" ∉ keys post := fun h => hD1 (by simp [h])
  have hd2_post : "dominantColor2" ∉ keys post := fun h => hD2 (by simp [h])
  unfold mergeToken
  rw [List.foldl_append,
    foldl_mergeStep_of_fresh colors pre [] (by simp) hpre_nd hlogo_pre,
    List.nil_append, List.foldl_cons,
    mergeStep_logo colors pre u hlogo_pre havg_pre hd1_pre hd2_pre,
    List.foldl_cons]
  have s1 : mergeStep colors (pre ++ ("logoURI", u) :: colorEntries colors)
      ("averageColor", a) =
      pre ++ ("logoURI", u) :: ("averageColor", a) ::
        [("dominantColor1", JsVal.str colors.dominantColor1),
         ("dominantColor2", JsVal.str colors.dominantColor2)] := by
    simp only [mergeStep]
    rw [if_neg (show ¬ ((("averageColor" : String) == "logoURI") = true) from by decide)]
    have e : pre ++ ("logoURI", u) :: colorEntries colors =
        (pre ++ [("logoURI", u)]) ++ ("averageColor", JsVal.str colors.averageColor) ::
          [("dominantColor1", JsVal.str colors.dominantColor1),
           ("dominantColor2", JsVal.str colors.dominantColor2)] := by
      simp [colorEntries]
    rw [e, assign_of_mem _ _ "averageColor" _ a ?hx1 ?hy1]
    · simp
    case hx1 =>
      simp only [keys_append, keys_cons, keys_nil, List.mem_append, List.mem_cons,
        List.not_mem_nil, or_false, not_or]
      exact ⟨havg_pre, by decide⟩
    case hy1 =>
      simp only [keys_cons, keys_nil]
      decide
  rw [s1, List.foldl_cons]
  have s2 : mergeStep colors
      (pre ++ ("logoURI", u) :: ("averageColor", a) ::
        [("dominantColor1", JsVal.str colors.dominantColor1),
         ("dominantColor2", JsVal.str colors.dominantColor2)])
      ("dominantColor1", b) =
      pre ++ ("logoURI", u) :: ("averageColor", a) :: ("dominantColor1", b) ::
        [("dominantColor2", JsVal.str colors.dominantColor2)] := by
    simp only [mergeStep]
    rw [if_neg (show ¬ ((("dominantColor1" : String) == "logoURI") = true) from by decide)]
    have e : pre ++ ("logoURI", u) :: ("averageColor", a) ::
        [("dominantColor1", JsVal.str colors.dominantColor1),
         ("dominantColor2", JsVal.str colors.dominantColor2)] =
        (pre ++ [("logoURI", u), ("averageColor", a)]) ++
          ("dominantColor1", JsVal.str colors.dominantColor1) ::
          [("dominantColor2", JsVal.str colors.dominantColor2)] := by
      simp
    rw [e, assign_of_mem _ _ "dominantColor1" _ b ?hx2 ?hy2]
    · simp
    case hx2 =>
      simp only [keys_append, keys_cons, keys_nil, List.mem_append, List.mem_cons,
        List.not_mem_nil, or_false, not_or]
      exact ⟨hd1_pre, by decide, by decide⟩
    case hy2 =>
      simp only [keys_cons, keys_nil]
      decide
  rw [s2, List.foldl_cons]
  have s3 : mergeStep colors
      (pre ++ ("logoURI", u) :: ("averageColor", a) :: ("dominantColor1", b) ::
        [("dominantColor2", JsVal.str colors.dominantColor2)])
      ("dominantColor2", c) =
      pre ++ ("logoURI", u) :: ("averageColor", a) :: ("dominantColor1", b) ::
        [("dominantColor2", c)] := by
    simp only [mergeStep]
    rw [if_neg (show ¬ ((("dominantColor2" : String) == "logoURI") = true) from by decide)]
    have e : pre ++ ("logoURI", u) :: ("averageColor", a) :: ("dominantColor1", b) ::
        [("dominantColor2", JsVal.str colors.dominantColor2)] =
        (pre ++ [("logoURI", u), ("averageColor", a), ("dominantColor1", b)]) ++
          ("dominantColor2", JsVal.str colors.dominantColor2) :: [] := by
      simp
    rw [e, assign_of_mem _ _ "dominantColor2" _ c ?hx3 ?hy3]
    · simp
    case hx3 =>
      simp only [keys_append, keys_cons, keys_nil, List.mem_append, List.mem_cons,
        List.not_mem_nil, or_false, not_or]
      exact ⟨hd2_pre, by decide, by decide, by decide⟩
    case hy3 =>
      simp only [keys_cons, keys_nil]
      decide
  rw [s3,
    foldl_mergeStep_of_fresh colors post
      (pre ++ ("logoURI", u) :: ("averageColor", a) :: ("dominantColor1", b) ::
        [("dominantColor2", c)]) ?hfresh hpost_nd hlogo_post]
  · simp
  case hfresh =>
    intro p hp
    have hpk : p.1 ∈ keys post := List.mem_map.mpr ⟨p, hp, rfl⟩
    simp only [keys_append, keys_cons, keys_nil, List.mem_append, List.mem_cons,
      List.not_mem_nil, or_false, not_or]
    refine ⟨fun hmem => hdisj hmem (by simp [hpk]), ?_, ?_, ?_, ?_⟩
    · exact fun h => hlogo_post (h ▸ hpk)
    · exact fun h => havg_post (h ▸ hpk)
    · exact fun h => hd1_post (h ▸ hpk)
    · exact fun h => hd2_post (h ▸ hpk)

/-- Witness for C10 at a concrete already-enriched token record. -/
theorem mergeToken_preexisting_colors_idempotent_witness :
    (keys ([("chainId", JsVal.str "1")] ++ ("logoURI", JsVal.str "u") ::
        ("averageColor", JsVal.str "#0a0b0c") :: ("dominantColor1", JsVal.str "#101112") ::
        ("dominantColor2", JsVal.str "#131415") :: [("name", JsVal.str "T")])).Nodup ∧
    mergeToken ([("chainId", JsVal.str "1")] ++ ("logoURI", JsVal.str "u") ::
        ("averageColor", JsVal.str "#0a0b0c") :: ("dominantColor1", JsVal.str "#101112") ::
        ("dominantColor2", JsVal.str "#131415") :: [("name", JsVal.str "T")])
        ⟨"#999999", "#888888", "#777777"⟩ =
      [("chainId", JsVal.str "1")] ++ ("logoURI", JsVal.str "u") ::
        ("averageColor", JsVal.str "#0a0b0c") :: ("dominantColor1", JsVal.str "#101112") ::
        ("dominantColor2", JsVal.str "#131415") :: [("name", JsVal.str "T")] :=
  ⟨by decide,
    mergeToken_preexisting_colors_idempotent [("chainId", JsVal.str "1")]
      [("name", JsVal.str "T")] (JsVal.str "u") (JsVal.str "#0a0b0c")
      (JsVal.str "#101112") (JsVal.str "#131415")
      ⟨"#999999", "#888888", "#777777"⟩ (by decide)⟩

@[simp]
theorem data_append (s t : String) : (s ++ t).data = s.data ++ t.data := rfl

@[simp]
theorem data_mk (l : List Char) : (String.mk l).data = l := rfl

/-- Every value produced by `hexVal?` is a hexadecimal digit value. -/
theorem hexVal?_lt (c : Char) (v : Nat) (h : hexVal? c = some v) : v < 16 := by
  simp only [hexVal?] at h
  split_ifs at h <;> injection h with h' <;> omega

/-- `hexVal?` inverts `hexDigitChar`. -/
theorem hexVal?_hexDigitChar : ∀ v : Nat, v < 16 → hexVal? (hexDigitChar v) = some v := by
  decide

/-- `hexDigitChar` produces lowercase hexadecimal digit characters. -/
theorem isLowerHexDigit_hexDigitChar : ∀ v : Nat, v < 16 →
    isLowerHexDigit (hexDigitChar v) = true := by
  decide

/-- A lowercase hexadecimal digit character is `hexDigitChar` of its value. -/
theorem exists_digit_of_isLowerHexDigit (c : Char) (h : isLowerHexDigit c = true) :
    ∃ v, v < 16 ∧ hexVal? c = some v ∧ hexDigitChar v = c := by
  unfold isLowerHexDigit at h
  rw [Bool.or_eq_true, Bool.and_eq_true, Bool.and_eq_true] at h
  simp only [decide_eq_true_eq] at h
  rcases h with ⟨h1, h2⟩ | ⟨h1, h2⟩
  · refine ⟨c.toNat - 48, by omega, ?_, ?_⟩
    · unfold hexVal?
      rw [if_pos (by omega)]
    · unfold hexDigitChar
      rw [if_pos (by omega), show 48 + (c.toNat - 48) = c.toNat by omega,
        Char.ofNat_toNat]
  · refine ⟨c.toNat - 87, by omega, ?_, ?_⟩
    · unfold hexVal?
      rw [if_neg (by omega), if_pos (by omega)]
    · unfold hexDigitChar
      rw [if_neg (by omega), show 87 + (c.toNat - 87) = c.toNat by omega,
        Char.ofNat_toNat]

/-- One digit below 16 prints as a single character, whatever the fuel. -/
theorem natToHexAux_small (fuel n : Nat) (h : n < 16) :
    natToHexAux (fuel + 1) n = [hexDigitChar n] := by
  unfold natToHexAux
  rw [if_pos h]

/-- A byte value prints (after padding) as exactly its two hex digits. -/
theorem pad2_natToHexString (n : Nat) (h : n < 256) :
    pad2 (natToHexString n) = String.mk [hexDigitChar (n / 16), hexDigitChar (n % 16)] := by
  by_cases h16 : n < 16
  · have hstr : natToHexString n = String.mk [hexDigitChar n] := by
      unfold natToHexString
      rw [natToHexAux_small n n h16]
      rfl
    rw [hstr]
    unfold pad2
    rw [if_pos (show ((String.mk [hexDigitChar n]).length == 1) = true from rfl),
      Nat.div_eq_of_lt h16, Nat.mod_eq_of_lt h16,
      show hexDigitChar 0 = '0' from by decide]
    rfl
  · have hstr : natToHexString n =
        String.mk [hexDigitChar (n / 16), hexDigitChar (n % 16)] := by
      unfold natToHexString
      have h1 : natToHexAux (n + 1) n =
          hexDigitChar (n % 16) :: natToHexAux n (n / 16) := by
        rw [show natToHexAux (n + 1) n =
            (if n < 16 then [hexDigitChar n]
             else hexDigitChar (n % 16) :: natToHexAux n (n / 16)) from rfl,
          if_neg h16]
      have h2 : natToHexAux n (n / 16) = [hexDigitChar (n / 16)] := by
        obtain ⟨m, rfl⟩ : ∃ m, n = m + 1 := ⟨n - 1, by omega⟩
        exact natToHexAux_small m ((m + 1) / 16) (by omega)
      rw [h1, h2]
      rfl
    rw [hstr]
    unfold pad2
    have hlen : ((String.mk [hexDigitChar (n / 16), hexDigitChar (n % 16)]).length == 1)
        = false := rfl
    rw [if_neg (by rw [hlen]; exact Bool.false_ne_true)]

/-- Nonnegative integers print like the corresponding natural number. -/
theorem intToHexString_of_nonneg (i : ℤ) (h : 0 ≤ i) :
    intToHexString i = natToHexString i.toNat := by
  unfold intToHexString
  rw [if_neg (by omega)]

/-- Channels parsed from a hex color string are byte values. -/
theorem hexToRgb_channels_le (s : String) (t : Nat × Nat × Nat)
    (h : hexToRgb s = some t) : t.1 ≤ 255 ∧ t.2.1 ≤ 255 ∧ t.2.2 ≤ 255 := by
  unfold hexToRgb at h
  split at h
  · split at h
    · rename_i a b c d e f h1 h2 h3 h4 h5 h6
      injection h with h'
      subst h'
      have := hexVal?_lt _ a h1
      have := hexVal?_lt _ b h2
      have := hexVal?_lt _ c h3
      have := hexVal?_lt _ d h4
      have := hexVal?_lt _ e h5
      have := hexVal?_lt _ f h6
      refine ⟨?_, ?_, ?_⟩ <;> dsimp only <;> omega
    · simp at h
  · simp at h

/-- Parsing inverts `toHex` on byte-valued channels. -/
theorem hexToRgb_toHex (x y z : Nat) (hx : x < 256) (hy : y < 256) (hz : z < 256) :
    hexToRgb (toHex (x, y, z)) = some (x, y, z) := by
  have hdata : (toHex (x, y, z)).data =
      '#' :: [hexDigitChar (x / 16), hexDigitChar (x % 16), hexDigitChar (y / 16),
        hexDigitChar (y % 16), hexDigitChar (z / 16), hexDigitChar (z % 16)] := by
    unfold toHex
    dsimp only
    rw [pad2_natToHexString x hx, pad2_natToHexString y hy, pad2_natToHexString z hz]
    simp
  unfold hexToRgb
  rw [hdata]
  simp only [stripHash]
  rw [hexVal?_hexDigitChar (x / 16) (by omega), hexVal?_hexDigitChar (x % 16) (by omega),
    hexVal?_hexDigitChar (y / 16) (by omega), hexVal?_hexDigitChar (y % 16) (by omega),
    hexVal?_hexDigitChar (z / 16) (by omega), hexVal?_hexDigitChar (z % 16) (by omega)]
  simp only [Option.some.injEq, Prod.mk.injEq]
  refine ⟨by omega, by omega, by omega⟩

/-- Rounding a natural number changes nothing. -/
theorem jsRound_natCast (n : Nat) : jsRound (n : ℚ) = n := by
  unfold jsRound
  rw [show ((n : ℚ) + 1/2) = ((n : ℤ) : ℚ) + 1/2 by push_cast; ring,
    Int.floor_int_add]
  norm_num

/-- Rounding keeps nonnegative values nonnegative. -/
theorem jsRound_nonneg (q : ℚ) (h : 0 ≤ q) : 0 ≤ jsRound q := by
  unfold jsRound
  rw [Int.floor_nonneg]
  linarith

/-- Rounding keeps values at most 255 at most 255. -/
theorem jsRound_le_255 (q : ℚ) (h : q ≤ 255) : jsRound q ≤ 255 := by
  unfold jsRound
  have : Int.floor (q + 1/2) < 256 := by
    rw [Int.floor_lt]
    push_cast
    linarith
  omega

/-- The interpolated channel stays inside `[0, 255]` for a ratio in `[0, 1]`. -/
theorem mix_channel_bounds (a b : Nat) (r : ℚ) (ha : a ≤ 255) (hb : b ≤ 255)
    (h0 : 0 ≤ r) (h1 : r ≤ 1) :
    0 ≤ (a : ℚ) * r + (b : ℚ) * (1 - r) ∧ (a : ℚ) * r + (b : ℚ) * (1 - r) ≤ 255 := by
  have ha' : (a : ℚ) ≤ 255 := by exact_mod_cast ha
  have hb' : (b : ℚ) ≤ 255 := by exact_mod_cast hb
  have ha0 : (0 : ℚ) ≤ a := Nat.cast_nonneg a
  have hb0 : (0 : ℚ) ≤ b := Nat.cast_nonneg b
  have hr1 : (0 : ℚ) ≤ 1 - r := by linarith
  constructor
  · have t1 := mul_nonneg ha0 h0
    have t2 := mul_nonneg hb0 hr1
    linarith
  · have t1 := mul_le_mul_of_nonneg_right ha' h0
    have t2 := mul_le_mul_of_nonneg_right hb' hr1
    linarith

/-- The spec's clamp is the identity here, because the rounded interpolation
of byte channels under a ratio in `[0, 1]` already lies in `[0, 255]`. -/
theorem specMixChannel_eq_round (a b : Nat) (r : ℚ) (ha : a ≤ 255) (hb : b ≤ 255)
    (h0 : 0 ≤ r) (h1 : r ≤ 1) :
    specMixChannel a b r = jsRound ((a : ℚ) * r + (b : ℚ) * (1 - r)) ∧
    0 ≤ jsRound ((a : ℚ) * r + (b : ℚ) * (1 - r)) ∧
    jsRound ((a : ℚ) * r + (b : ℚ) * (1 - r)) ≤ 255 := by
  obtain ⟨hq0, hq255⟩ := mix_channel_bounds a b r ha hb h0 h1
  have hr0 := jsRound_nonneg _ hq0
  have hr255 := jsRound_le_255 _ hq255
  refine ⟨?_, hr0, hr255⟩
  unfold specMixChannel
  rw [min_eq_right hr255, max_eq_right hr0]

/-- A byte-valued integer prints as two lowercase hexadecimal digits. -/
theorem pad2_intToHexString_byte (i : ℤ) (h0 : 0 ≤ i) (h255 : i ≤ 255) :
    (pad2 (intToHexString i)).data =
      [hexDigitChar (i.toNat / 16), hexDigitChar (i.toNat % 16)] ∧
    (pad2 (intToHexString i)).data.all isLowerHexDigit = true := by
  rw [intToHexString_of_nonneg i h0, pad2_natToHexString i.toNat (by omega)]
  refine ⟨rfl, ?_⟩
  simp only [data_mk, List.all_cons, List.all_nil, Bool.and_true, Bool.and_eq_true]
  exact ⟨isLowerHexDigit_hexDigitChar _ (by omega), isLowerHexDigit_hexDigitChar _ (by omega)⟩

/-- C5: on inputs accepted by the hex regular expression and a ratio in
`[0, 1]`, `mixColors` returns exactly the spec's channel-wise interpolation
`r*color1 + (1-r)*color2`, rounded to the nearest integer and clamped into
`[0, 255]`, re-encoded as a valid 7-character lowercase `#rrggbb` string. -/
theorem mixColors_implements_spec_mix (c1 c2 : String) (t1 t2 : Nat × Nat × Nat)
    (r : ℚ) (h1 : hexToRgb c1 = some t1) (h2 : hexToRgb c2 = some t2)
    (hr0 : 0 ≤ r) (hr1 : r ≤ 1) :
    mixColors c1 c2 r = some (specMix t1 t2 r) ∧
      isCanonicalHexColor (specMix t1 t2 r) = true := by
  obtain ⟨hx1, hy1, hz1⟩ := hexToRgb_channels_le c1 t1 h1
  obtain ⟨hx2, hy2, hz2⟩ := hexToRgb_channels_le c2 t2 h2
  obtain ⟨e1, p10, p1255⟩ := specMixChannel_eq_round t1.1 t2.1 r hx1 hx2 hr0 hr1
  obtain ⟨e2, p20, p2255⟩ := specMixChannel_eq_round t1.2.1 t2.2.1 r hy1 hy2 hr0 hr1
  obtain ⟨e3, p30, p3255⟩ := specMixChannel_eq_round t1.2.2 t2.2.2 r hz1 hz2 hr0 hr1
  have hdata : (specMix t1 t2 r).data = '#' ::
      ((pad2 (intToHexString (specMixChannel t1.1 t2.1 r))).data ++
        ((pad2 (intToHexString (specMixChannel t1.2.1 t2.2.1 r))).data ++
          (pad2 (intToHexString (specMixChannel t1.2.2 t2.2.2 r))).data)) := by
    unfold specMix
    simp
  obtain ⟨d1, a1⟩ := pad2_intToHexString_byte _ (e1 ▸ p10) (e1 ▸ p1255)
  obtain ⟨d2, a2⟩ := pad2_intToHexString_byte _ (e2 ▸ p20) (e2 ▸ p2255)
  obtain ⟨d3, a3⟩ := pad2_intToHexString_byte _ (e3 ▸ p30) (e3 ▸ p3255)
  constructor
  · unfold mixColors
    rw [h1, h2]
    dsimp only
    unfold rgbToHex specMix hexPiece
    rw [e1, e2, e3]
  · unfold isCanonicalHexColor
    rw [hdata]
    dsimp only
    rw [d1, d2, d3]
    rw [d1] at a1
    rw [d2] at a2
    rw [d3] at a3
    have b1 : (specMixChannel t1.1 t2.1 r).toNat < 256 := by rw [e1]; omega
    have b2 : (specMixChannel t1.2.1 t2.2.1 r).toNat < 256 := by rw [e2]; omega
    have b3 : (specMixChannel t1.2.2 t2.2.2 r).toNat < 256 := by rw [e3]; omega
    simp only [List.all_append, a1, a2, a3, List.all_cons, List.all_nil, List.length_append,
      List.length_cons, List.length_nil, Bool.and_eq_true, beq_iff_eq, Bool.and_true, and_true,
      true_and]

/-- Witness for C5 at concrete colors and ratio 1/4. -/
theorem mixColors_implements_spec_mix_witness :
    hexToRgb "#102030" = some (16, 32, 48) ∧ hexToRgb "#ffffff" = some (255, 255, 255) ∧
    (0 ≤ (1/4 : ℚ)) ∧ ((1/4 : ℚ) ≤ 1) ∧
    (mixColors "#102030" "#ffffff" (1/4) =
        some (specMix (16, 32, 48) (255, 255, 255) (1/4)) ∧
      isCanonicalHexColor (specMix (16, 32, 48) (255, 255, 255) (1/4)) = true) :=
  ⟨by decide, by decide, by norm_num, by norm_num,
    mixColors_implements_spec_mix "#102030" "#ffffff" (16, 32, 48) (255, 255, 255)
      (1/4) (by decide) (by decide) (by norm_num) (by norm_num)⟩

/-- A list of length six is literally six elements. -/
theorem list_length_six {α : Type} (l : List α) (h : l.length = 6) :
    ∃ a b c d e f, l = [a, b, c, d, e, f] := by
  rcases l with _ | ⟨a, _ | ⟨b, _ | ⟨c, _ | ⟨d, _ | ⟨e, _ | ⟨f, _ | ⟨g, t⟩⟩⟩⟩⟩⟩⟩ <;>
    simp at h
  exact ⟨a, b, c, d, e, f, rfl⟩

/-- A canonical `#rrggbb` string parses to byte channels and re-encodes to
itself. -/
theorem canonical_parse (s : String) (h : isCanonicalHexColor s = true) :
    ∃ x y z : Nat, x < 256 ∧ y < 256 ∧ z < 256 ∧
      hexToRgb s = some (x, y, z) ∧ toHex (x, y, z) = s := by
  unfold isCanonicalHexColor at h
  split at h
  · rename_i c rest hcr
    rw [Bool.and_eq_true, Bool.and_eq_true] at h
    obtain ⟨⟨hhash, hlen⟩, hall⟩ := h
    have hc : c = '#' := by simpa using hhash
    have hlen6 : rest.length = 6 := by simpa using hlen
    subst hc
    obtain ⟨c1, c2, c3, c4, c5, c6, rfl⟩ := list_length_six rest hlen6
    rw [List.all_eq_true] at hall
    obtain ⟨v1, hv1lt, hv1, hc1⟩ := exists_digit_of_isLowerHexDigit c1 (hall c1 (by simp))
    obtain ⟨v2, hv2lt, hv2, hc2⟩ := exists_digit_of_isLowerHexDigit c2 (hall c2 (by simp))
    obtain ⟨v3, hv3lt, hv3, hc3⟩ := exists_digit_of_isLowerHexDigit c3 (hall c3 (by simp))
    obtain ⟨v4, hv4lt, hv4, hc4⟩ := exists_digit_of_isLowerHexDigit c4 (hall c4 (by simp))
    obtain ⟨v5, hv5lt, hv5, hc5⟩ := exists_digit_of_isLowerHexDigit c5 (hall c5 (by simp))
    obtain ⟨v6, hv6lt, hv6, hc6⟩ := exists_digit_of_isLowerHexDigit c6 (hall c6 (by simp))
    refine ⟨16 * v1 + v2, 16 * v3 + v4, 16 * v5 + v6,
      by omega, by omega, by omega, ?_, ?_⟩
    · unfold hexToRgb
      rw [hcr]
      simp only [stripHash]
      rw [hv1, hv2, hv3, hv4, hv5, hv6]
    · apply String.ext
      unfold toHex
      dsimp only
      rw [pad2_natToHexString _ (by omega : 16 * v1 + v2 < 256),
        pad2_natToHexString _ (by omega : 16 * v3 + v4 < 256),
        pad2_natToHexString _ (by omega : 16 * v5 + v6 < 256),
        show (16 * v1 + v2) / 16 = v1 by omega, show (16 * v1 + v2) % 16 = v2 by omega,
        show (16 * v3 + v4) / 16 = v3 by omega, show (16 * v3 + v4) % 16 = v4 by omega,
        show (16 * v5 + v6) / 16 = v5 by omega, show (16 * v5 + v6) % 16 = v6 by omega,
        hc1, hc2, hc3, hc4, hc5, hc6, hcr]
      simp
  · exact absurd h (by decide)

/-- Encoding natural channel values with `rgbToHex` agrees with `toHex`. -/
theorem rgbToHex_natCast (x y z : Nat) :
    rgbToHex (x : ℚ) (y : ℚ) (z : ℚ) = toHex (x, y, z) := by
  unfold rgbToHex toHex hexPiece
  rw [jsRound_natCast, jsRound_natCast, jsRound_natCast]
  rw [intToHexString_of_nonneg _ (by omega), intToHexString_of_nonneg _ (by omega),
    intToHexString_of_nonneg _ (by omega)]
  simp

/-- C6: on canonical `#rrggbb` colors, mixing with ratio 1 returns the first
color, ratio 0 returns the second, and mixing a color with itself returns the
color for every ratio in `[0, 1]`. -/
theorem mixColors_ratio_identities (a b : String) (ha : isCanonicalHexColor a = true)
    (hb : isCanonicalHexColor b = true) (r : ℚ) (_hr0 : 0 ≤ r) (_hr1 : r ≤ 1) :
    mixColors a b 1 = some a ∧ mixColors a b 0 = some b ∧ mixColors a a r = some a := by
  obtain ⟨x1, y1, z1, hx1, hy1, hz1, hp1, he1⟩ := canonical_parse a ha
  obtain ⟨x2, y2, z2, hx2, hy2, hz2, hp2, he2⟩ := canonical_parse b hb
  refine ⟨?_, ?_, ?_⟩
  · unfold mixColors
    rw [hp1, hp2]
    dsimp only
    rw [show ((x1 : ℚ) * 1 + (x2 : ℚ) * (1 - 1)) = (x1 : ℚ) by ring,
      show ((y1 : ℚ) * 1 + (y2 : ℚ) * (1 - 1)) = (y1 : ℚ) by ring,
      show ((z1 : ℚ) * 1 + (z2 : ℚ) * (1 - 1)) = (z1 : ℚ) by ring,
      rgbToHex_natCast, he1]
  · unfold mixColors
    rw [hp1, hp2]
    dsimp only
    rw [show ((x1 : ℚ) * 0 + (x2 : ℚ) * (1 - 0)) = (x2 : ℚ) by ring,
      show ((y1 : ℚ) * 0 + (y2 : ℚ) * (1 - 0)) = (y2 : ℚ) by ring,
      show ((z1 : ℚ) * 0 + (z2 : ℚ) * (1 - 0)) = (z2 : ℚ) by ring,
      rgbToHex_natCast, he2]
  · unfold mixColors
    rw [hp1]
    dsimp only
    rw [show ((x1 : ℚ) * r + (x1 : ℚ) * (1 - r)) = (x1 : ℚ) by ring,
      show ((y1 : ℚ) * r + (y1 : ℚ) * (1 - r)) = (y1 : ℚ) by ring,
      show ((z1 : ℚ) * r + (z1 : ℚ) * (1 - r)) = (z1 : ℚ) by ring,
      rgbToHex_natCast, he1]

/-- Witness for C6 at concrete canonical colors and ratio 1/3. -/
theorem mixColors_ratio_identities_witness :
    isCanonicalHexColor "#0a1b2c" = true ∧ isCanonicalHexColor "#ffffff" = true ∧
    (0 ≤ (1/3 : ℚ)) ∧ ((1/3 : ℚ) ≤ 1) ∧
    (mixColors "#0a1b2c" "#ffffff" 1 = some "#0a1b2c" ∧
      mixColors "#0a1b2c" "#ffffff" 0 = some "#ffffff" ∧
      mixColors "#0a1b2c" "#0a1b2c" (1/3) = some "#0a1b2c") :=
  ⟨by decide, by decide, by norm_num, by norm_num,
    mixColors_ratio_identities "#0a1b2c" "#ffffff" (by decide) (by decide) (1/3)
      (by norm_num) (by norm_num)⟩

/-- C7: on a one-entry palette the extractor keeps `dominantColor1 = toHex`
of that entry and derives `dominantColor2` by `mixColors(dominantColor1,
'#ffffff', 0.1)`; on an empty palette `dominantColor1` falls back to
`#000000`. -/
theorem processImage_palette_edge_cases (c avg : Nat × Nat × Nat)
    (h1 : c.1 < 256) (h2 : c.2.1 < 256) (h3 : c.2.2 < 256) :
    (∃ d, mixColors (toHex c) "#ffffff" (1/10) = some d ∧
      (processImage (some (ImgOutcome.decoded [c] avg))).dominantColor1 = toHex c ∧
      (processImage (some (ImgOutcome.decoded [c] avg))).dominantColor2 = d) ∧
    (processImage (some (ImgOutcome.decoded [] avg))).dominantColor1 = "#000000" := by
  obtain ⟨x, y, z⟩ := c
  have hp : hexToRgb (toHex (x, y, z)) = some (x, y, z) := hexToRgb_toHex x y z h1 h2 h3
  have hw : hexToRgb "#ffffff" = some (255, 255, 255) := by decide
  have hmix : mixColors (toHex (x, y, z)) "#ffffff" (1/10) =
      some (rgbToHex ((x : ℚ) * (1/10) + (((255 : Nat)) : ℚ) * (1 - 1/10))
        ((y : ℚ) * (1/10) + (((255 : Nat)) : ℚ) * (1 - 1/10))
        ((z : ℚ) * (1/10) + (((255 : Nat)) : ℚ) * (1 - 1/10))) := by
    unfold mixColors
    rw [hp, hw]
  constructor
  · refine ⟨_, hmix, ?_, ?_⟩ <;>
    · simp only [processImage, processImageFS, dominantOf, List.get?]
      rw [hmix]
  · simp only [processImage, processImageFS, dominantOf, List.get?]
    cases hm : mixColors "#000000" "#ffffff" (1/10) with
    | none => rfl
    | some d => rfl

/-- Witness for C7 at a concrete one-entry palette and the empty palette. -/
theorem processImage_palette_edge_cases_witness :
    ((255, 0, 17) : Nat × Nat × Nat).1 < 256 ∧
    ((∃ d, mixColors (toHex (255, 0, 17)) "#ffffff" (1/10) = some d ∧
      (processImage (some (ImgOutcome.decoded [(255, 0, 17)] (1, 2, 3)))).dominantColor1 =
        toHex (255, 0, 17) ∧
      (processImage (some (ImgOutcome.decoded [(255, 0, 17)] (1, 2, 3)))).dominantColor2 = d) ∧
    (processImage (some (ImgOutcome.decoded [] (1, 2, 3)))).dominantColor1 = "#000000") :=
  ⟨by decide,
    processImage_palette_edge_cases (255, 0, 17) (1, 2, 3) (by decide) (by decide) (by decide)⟩

end TokenColors
